import Mathlib

/-!
Verification development for the chunked-GeoTIFF reassembly engine
(`reassembleGeoTiffChunks.py` of the PilotForce repository).

The Python source is shallowly embedded: strings are `List Char`
(Python `str.lower`, substring tests, slicing and regex searches are
modelled by executable functions over character lists), byte payloads
are `List Nat`, the two DynamoDB tables are association lists keyed the
way the code keys them, and every AWS side effect (S3 listing,
`head_object`, `get_object`, multipart copy failures, the clock, the
uuid suffix of a generated resource id) is an explicit input.  All
definitions are computable so that concrete scenarios evaluate by
`decide`.
-/

set_option maxRecDepth 4000

/-- Characters of a Python `str`; all keys in the source are ASCII. -/
abbrev Str := List Char

/-- Python `str.lower()` (ASCII; all relevant characters are ASCII). -/
def lowerStr (s : Str) : Str := s.map Char.toLower

/-- Python `a.startswith(b)` on character lists. -/
def startsWithS : Str → Str → Bool
  | _, [] => true
  | [], _ :: _ => false
  | c :: cs, d :: ds => c == d && startsWithS cs ds

/-- Python `a.endswith(b)` on character lists. -/
def endsWithS (s suf : Str) : Bool := startsWithS s.reverse suf.reverse

/-- Python `sub in s` (substring containment). -/
def containsS : Str → Str → Bool
  | [], sub => startsWithS [] sub
  | c :: cs, sub => startsWithS (c :: cs) sub || containsS cs sub

/-- Python `s.find(sub)`: index of the first occurrence, `none` for `-1`. -/
def findSub (sub : Str) : Str → Option Nat
  | [] => if startsWithS [] sub then some 0 else none
  | c :: cs =>
    if startsWithS (c :: cs) sub then some 0
    else (findSub sub cs).map Nat.succ

/-- Digit run value, e.g. `digitsToNat ['1','2']` = 12. -/
def digitsToNat (ds : Str) : Nat :=
  ds.foldl (fun acc c => acc * 10 + (c.toNat - 48)) 0

/-- Text after the last `/`, i.e. Python `key.split('/')[-1]`. -/
def lastComponent (k : Str) : Str :=
  k.foldl (fun acc c => if c == '/' then [] else acc ++ [c]) []

def dotPartLit : Str := ".part".data
def underscorePartLit : Str := "_part".data
def partLit : Str := "part".data
def manifestSuffixLit : Str := "_manifest.json".data
def manifestChunkLit : Str := "_manifest".data
def tifLit : Str := ".tif".data
def tiffLit : Str := ".tiff".data
def slashLit : Str := "/".data
def usLit : Str := "_".data
def reassembledLit : Str := "reassembled_".data
def geotiffLit : Str := "geotiff_".data

/-!  ## Part-number extraction (`extract_part_num`, source lines 490-505)

The source tries, with `re.search` on the lowercased key, the patterns
`\.part(\d+)$`, `_part(\d+)_`, `part(\d+)` in that order and falls back
to 0.  Each `...At` function decides whether the pattern matches at the
start of its argument and returns the captured group; `searchWith`
reproduces `re.search`'s leftmost-match scan.  Greedy `\d+` followed by
`$` or `_` forces the captured run to be maximal, which the
`takeWhile`/`all` formulations implement. -/

/-- Match of `\.part(\d+)$` anchored at the start of `s` (to the end). -/
def pat1At (s : Str) : Option Nat :=
  if s.take 5 = dotPartLit then
    let rest := s.drop 5
    if rest ≠ [] ∧ rest.all Char.isDigit then some (digitsToNat rest) else none
  else none

/-- Match of `_part(\d+)_` anchored at the start of `s`. -/
def pat2At (s : Str) : Option Nat :=
  if s.take 5 = underscorePartLit then
    let rest := s.drop 5
    let ds := rest.takeWhile Char.isDigit
    if ds ≠ [] ∧ (rest.drop ds.length).head? = some '_' then some (digitsToNat ds)
    else none
  else none

/-- Match of `part(\d+)` anchored at the start of `s`. -/
def pat3At (s : Str) : Option Nat :=
  if s.take 4 = partLit then
    let ds := (s.drop 4).takeWhile Char.isDigit
    if ds ≠ [] then some (digitsToNat ds) else none
  else none

/-- `re.search`: scan start positions left to right. -/
def searchWith (f : Str → Option Nat) : Str → Option Nat
  | [] => f []
  | c :: cs =>
    match f (c :: cs) with
    | some n => some n
    | none => searchWith f cs

/-- `extract_part_num` of the source: first matching pattern wins, 0 otherwise. -/
def extract_part_num (key : Str) : Nat :=
  let k := lowerStr key
  match searchWith pat1At k with
  | some n => n
  | none =>
    match searchWith pat2At k with
    | some n => n
    | none =>
      match searchWith pat3At k with
      | some n => n
      | none => 0

/-!  ## Sorting

`sorted(chunk_keys, key=extract_part_num)` is Python's stable sort by
the extracted index; a stable sort by a total key is uniquely
determined, so stable insertion sort is an exact model.  `sorted(keys)`
on plain strings is the same sort by code-point lexicographic order. -/

/-- Stable insertion of `x`: `x` goes before the first element whose
extracted index is not smaller. -/
def insertPart (x : Str) : List Str → List Str
  | [] => [x]
  | y :: ys =>
    if extract_part_num x ≤ extract_part_num y then x :: y :: ys
    else y :: insertPart x ys

/-- `sorted(chunk_keys, key=extract_part_num)` (source line 508). -/
def sortByPartNum : List Str → List Str
  | [] => []
  | x :: xs => insertPart x (sortByPartNum xs)

/-- Code-point lexicographic `<` on strings (Python string comparison). -/
def ltStr : Str → Str → Bool
  | [], [] => false
  | [], _ :: _ => true
  | _ :: _, [] => false
  | c :: cs, d :: ds => c < d || (c == d && ltStr cs ds)

/-- Stable insertion for the lexicographic sort. -/
def insertLex (x : Str) : List Str → List Str
  | [] => [x]
  | y :: ys => if ltStr y x then y :: insertLex x ys else x :: y :: ys

/-- `sorted(chunk_keys)` on plain keys (source line 398). -/
def sortLexS : List Str → List Str
  | [] => []
  | x :: xs => insertLex x (sortLexS xs)

/-!  ## Strategy selection (source lines 527-536) -/

/-- S3 minimum part size: `5 * 1024 * 1024` bytes. -/
def min_part_size : Nat := 5 * 1024 * 1024

/-- The list comprehension
`[i for i, size in enumerate(chunk_sizes) if i < len(chunk_sizes) - 1 and size < min_part_size]`,
unrolled with an explicit running index. -/
def small_chunks_aux (total : Nat) : Nat → List Nat → List Nat
  | _, [] => []
  | i, s :: rest =>
    if i < total - 1 && s < min_part_size then i :: small_chunks_aux total (i + 1) rest
    else small_chunks_aux total (i + 1) rest

/-- `small_chunks` of the source. -/
def small_chunks (chunk_sizes : List Nat) : List Nat :=
  small_chunks_aux chunk_sizes.length 0 chunk_sizes

/-- `if small_chunks and len(sorted_chunks) > 1:` — true selects the
direct download/concatenate path, false the multipart (segmented-copy)
path. -/
def selectsDirectPath (sorted_chunks : List Str) (chunk_sizes : List Nat) : Bool :=
  !(small_chunks chunk_sizes).isEmpty && sorted_chunks.length > 1

example : extract_part_num "f.part0".data = 0 := by decide
example : extract_part_num "f.part2".data = 2 := by decide
example : extract_part_num "a_part7_x".data = 7 := by decide
example : extract_part_num "nopart".data = 0 := by decide
example : sortByPartNum ["f.part2".data, "f.part0".data, "f.part1".data]
    = ["f.part0".data, "f.part1".data, "f.part2".data] := by decide
example : selectsDirectPath ["a".data, "b".data, "c".data]
    [3 * 1024 * 1024, 3 * 1024 * 1024, 1024 * 1024] = true := by decide
example : selectsDirectPath ["a".data, "b".data, "c".data]
    [6 * 1024 * 1024, 6 * 1024 * 1024, 1024 * 1024] = false := by decide

/-!  ## Data model

`ChunkSession` items live in the `GeoTiffChunks` table keyed by
`(bookingId, chunkId)` with `chunkId = sessionId + "_manifest"`;
`ResourceRecord`s live in the `Resources` table keyed by `resourceId`.
DynamoDB `put_item` replaces the whole item, `update_item ... SET`
merges fields into the existing item (creating a blank one when
absent); both are modelled on association lists.  Item attributes that
an operation may leave unset are `Option`s. -/

inductive SessionStatus where
  | pending
  | completed
  | failed
  deriving DecidableEq, Repr

structure SessionRec where
  sessionId : Option Str := none
  originalFileName : Option Str := none
  totalChunks : Option Nat := none
  checksum : Option Str := none
  timestamp : Option Nat := none
  manifestKey : Option Str := none
  status : Option SessionStatus := none
  chunksUploaded : Option Nat := none
  lastUpdated : Option Nat := none
  finalResourceId : Option Str := none
  reassembledUrl : Option Str := none
  completedAt : Option Nat := none
  errorMessage : Option Str := none
  failedAt : Option Nat := none
  deriving DecidableEq, Repr

structure ResourceRecord where
  resourceId : Str := []
  bookingId : Str := []
  fileName : Str := []
  s3Key : Str := []
  url : Str := []
  size : Nat := 0
  sessionId : Str := []
  createdAt : Nat := 0
  originalResourceId : Option Str := none
  deriving DecidableEq, Repr

/-- The manifest JSON document; `none` models a missing JSON field. -/
structure Manifest where
  sessionId : Option Str := none
  originalFileName : Option Str := none
  totalChunks : Option Nat := none
  checksum : Option Str := none
  timestamp : Option Nat := none
  deriving DecidableEq, Repr

abbrev SKey := Str × Str

structure SysState where
  sessions : List (SKey × SessionRec) := []
  resources : List (Str × ResourceRecord) := []
  deriving DecidableEq, Repr

/-- Association-list lookup (first matching key). -/
def alookup {κ α : Type} [DecidableEq κ] (k : κ) : List (κ × α) → Option α
  | [] => none
  | (k', v) :: rest => if k' = k then some v else alookup k rest

/-- Association-list upsert: replace the entry with key `k`, or append. -/
def aupsert {κ α : Type} [DecidableEq κ] (k : κ) (v : α) : List (κ × α) → List (κ × α)
  | [] => [(k, v)]
  | (k', v') :: rest => if k' = k then (k, v) :: rest else (k', v') :: aupsert k v rest

/-- DynamoDB key of a session: `(bookingId, f"{session_id}_manifest")`. -/
def sessionKey (booking sid : Str) : SKey := (booking, sid ++ manifestChunkLit)

def emptySessionRec : SessionRec := {}

/-- `update_item ... SET` on the chunks table: merge `f` into the
existing item, or into a blank item when none exists. -/
def updSession (st : SysState) (booking sid : Str) (f : SessionRec → SessionRec) : SysState :=
  let k := sessionKey booking sid
  let r0 := (alookup k st.sessions).getD emptySessionRec
  { st with sessions := aupsert k (f r0) st.sessions }

/-- `register_chunks_from_manifest` (source lines 312-346): an
unconditional `put_item` of the whole session item with
`status='pending'` and `chunksUploaded=0`; missing/empty `sessionId` or
`originalFileName` just logs and returns. -/
def register_chunks_from_manifest (st : SysState) (booking : Str) (manifest : Manifest)
    (manifestKey : Str) (now : Nat) : SysState :=
  match manifest.sessionId with
  | none => st
  | some sid =>
    if sid = [] then st
    else
      match manifest.originalFileName with
      | none => st
      | some ofn =>
        if ofn = [] then st
        else
          let item : SessionRec :=
            { sessionId := some sid
              originalFileName := some ofn
              totalChunks := some (manifest.totalChunks.getD 0)
              checksum := some (manifest.checksum.getD [])
              timestamp := some (manifest.timestamp.getD (now * 1000))
              manifestKey := some manifestKey
              status := some SessionStatus.pending
              chunksUploaded := some 0
              lastUpdated := some now }
          { st with sessions := aupsert (sessionKey booking sid) item st.sessions }

/-- Session update of `finalize_reassembly` (source lines 696-712):
`SET status='completed', finalResourceId, reassembledUrl, completedAt`. -/
def completeSessionUpdate (st : SysState) (booking sid rid url : Str) (now : Nat) : SysState :=
  updSession st booking sid fun r =>
    { r with status := some SessionStatus.completed
             finalResourceId := some rid
             reassembledUrl := some url
             completedAt := some now }

/-- Failure update of `reassemble_chunks_from_manifest` (source lines
950-966): `SET status='failed', errorMessage, failedAt`. -/
def failSessionUpdate (st : SysState) (booking sid msg : Str) (now : Nat) : SysState :=
  updSession st booking sid fun r =>
    { r with status := some SessionStatus.failed
             errorMessage := some msg
             failedAt := some now }

/-- Count/timestamp update of `check_chunks_availability` (source lines
413-424): `SET chunksUploaded, lastUpdated`. -/
def availabilityPersist (st : SysState) (booking sid : Str) (count now : Nat) : SysState :=
  updSession st booking sid fun r =>
    { r with chunksUploaded := some count, lastUpdated := some now }

/-!  ## Availability check (source lines 348-435) -/

/-- Candidate filter inside the availability check:
`"_manifest.json" not in key and "part" in key`. -/
def isChunkCandidate (key : Str) : Bool :=
  !containsS key manifestSuffixLit && containsS key partLit

/-- Last element of `d :: l`. -/
def lastD : Str → List Str → Str
  | d, [] => d
  | _, x :: rest => lastD x rest

/-- The keys the check probes with `head_object`: the first element of
the (lexicographically) sorted candidate list, and — when there is more
than one — also the last. -/
def firstLastProbes : List Str → List Str
  | [] => []
  | [x] => [x]
  | x :: y :: rest => [x, lastD y rest]

/-- Probe keys in order with `head_object`; stop at the first failure.
Returns the keys actually probed and whether all probes succeeded. -/
def probeRun (accessible : Str → Bool) : List Str → List Str × Bool
  | [] => ([], true)
  | k :: rest =>
    if accessible k then
      let p := probeRun accessible rest
      (k :: p.1, p.2)
    else ([k], false)

structure AvailabilityResult where
  ready : Bool
  probedKeys : List Str := []
  persisted : Bool := false
  persistedCount : Option Nat := none
  deriving DecidableEq, Repr

/-- `check_chunks_availability`.  `listing` is the S3 listing under the
`f"{booking_id}/{session_id}"` search path; `accessible` tells whether
a `head_object` probe succeeds.  The result records the decision, the
keys probed, and whether the chunksUploaded/lastUpdated write ran. -/
def check_chunks_availability (st : SysState) (booking sid : Str) (total_chunks : Nat)
    (listing : List Str) (accessible : Str → Bool) (now : Nat) :
    SysState × AvailabilityResult :=
  match alookup (sessionKey booking sid) st.sessions with
  | none => (st, { ready := false })
  | some item =>
    if item.chunksUploaded.getD 0 = total_chunks then (st, { ready := true })
    else
      let chunk_keys := listing.filter isChunkCandidate
      let chunk_count := chunk_keys.length
      if total_chunks ≤ chunk_count then
        let probe := probeRun accessible (firstLastProbes (sortLexS chunk_keys))
        if probe.2 then
          (availabilityPersist st booking sid chunk_count now,
           { ready := true, probedKeys := probe.1, persisted := true,
             persistedCount := some chunk_count })
        else (st, { ready := false, probedKeys := probe.1 })
      else
        (availabilityPersist st booking sid chunk_count now,
         { ready := false, persisted := true, persistedCount := some chunk_count })

/-!  ## Chunk discovery (source lines 751-828 and 894-944)

`reassemble_chunks_by_session` unions three heuristics — session id in
the key path, session id anywhere in the key, per-object metadata tag —
and, when all are empty, falls back to grouping `.partN`-suffixed keys
by basename and taking the largest group.  Python's
`list(set(...))` iterates in an unspecified order; it is modelled as
first-occurrence deduplication, and only order-insensitive (set-level)
facts are claimed about the union.  The fallback's `max` over
`dict.items()` keeps the first maximal group in insertion order, which
is listing order. -/

/-- First-occurrence deduplication, modelling `list(set(...))` up to
iteration order. -/
def dedupFirst : List Str → List Str
  | [] => []
  | x :: xs => x :: (dedupFirst xs).filter (fun y => decide (y ≠ x))

/-- Match of `(.+)\.part\d+$` against an (already lowercased) key:
the basename preceding the final `.partN` suffix, if any.  Greedy `.+`
makes the digit run the maximal trailing one. -/
def splitBase (kLower : Str) : Option Str :=
  let ds := (kLower.reverse.takeWhile Char.isDigit).reverse
  if ds = [] then none
  else
    let rest := kLower.take (kLower.length - ds.length)
    if endsWithS rest dotPartLit ∧ 5 < rest.length then some (rest.take (rest.length - 5))
    else none

/-- Append `k` to the group keyed `b`, or start a new group at the end
(Python dict insertion order). -/
def insertGroup (b k : Str) : List (Str × List Str) → List (Str × List Str)
  | [] => [(b, [k])]
  | (b', ks) :: rest =>
    if b' = b then (b', ks ++ [k]) :: rest else (b', ks) :: insertGroup b k rest

def addToGroups (groups : List (Str × List Str)) (k : Str) : List (Str × List Str) :=
  match splitBase (lowerStr k) with
  | none => groups
  | some b => insertGroup b k groups

/-- The `chunk_groups` dict, built over the part-pattern keys in
listing order. -/
def buildGroups (keys : List Str) : List (Str × List Str) :=
  keys.foldl addToGroups []

/-- Python `max(items, key=lambda x: len(x[1]))`: the first group of
maximal size in iteration order. -/
def maxByLen : List (Str × List Str) → Option (Str × List Str)
  | [] => none
  | g :: gs =>
    match maxByLen gs with
    | none => some g
    | some g' => if g.2.length < g'.2.length then some g' else some g

/-- Union of discovery approaches 1-3 of `reassemble_chunks_by_session`
(path containment, filename containment, metadata timestamp tag).
`meta k` is the `Metadata['timestamp']` of `k`, `none` when the tag is
absent or `head_object` fails (the code skips such keys). -/
def discoverCombined (booking sid : Str) (listing : List Str) (meta : Str → Option Str) :
    List Str :=
  let path_pattern := booking ++ slashLit ++ sid
  let path_chunks := listing.filter
    (fun k => containsS k path_pattern && !containsS k manifestSuffixLit)
  let filename_chunks := listing.filter
    (fun k => containsS k sid && !containsS k manifestSuffixLit)
  let metadata_chunks := listing.filter
    (fun k => !containsS k manifestSuffixLit && containsS (lowerStr k) partLit
      && decide (meta k = some sid))
  dedupFirst (path_chunks ++ filename_chunks ++ metadata_chunks)

/-- Naming-convention fallback (source lines 804-824): group keys that
contain `.part` by the basename captured from `(.+)\.part\d+$` and take
the group with the most members. -/
def discoverFallback (listing : List Str) : List Str :=
  let part_chunks := listing.filter (fun k => containsS (lowerStr k) dotPartLit)
  match maxByLen (buildGroups part_chunks) with
  | some g => g.2
  | none => []

/-- Full chunk discovery of `reassemble_chunks_by_session`. -/
def discoverBySession (booking sid : Str) (listing : List Str) (meta : Str → Option Str) :
    List Str :=
  let combined := discoverCombined booking sid listing meta
  if combined = [] then discoverFallback listing else combined

/-- Chunk discovery of `reassemble_chunks_from_manifest` (source lines
918-935): path/filename containment, deduplicated, then the raw
`.part`-pattern keys when that union is empty. -/
def discoverFromManifest (booking sid : Str) (listing : List Str) : List Str :=
  let path_pattern := booking ++ slashLit ++ sid
  let path_chunks := listing.filter
    (fun k => containsS k path_pattern && !containsS k manifestSuffixLit)
  let filename_chunks := listing.filter
    (fun k => containsS k sid && !containsS k manifestSuffixLit)
  let part_pattern_chunks := listing.filter
    (fun k => containsS (lowerStr k) dotPartLit && !containsS k manifestSuffixLit)
  let ck := dedupFirst (path_chunks ++ filename_chunks)
  if ck = [] && !part_pattern_chunks.isEmpty then part_pattern_chunks else ck

/-!  ## Filename cleaning and output key (source lines 471-485) -/

/-- First cleaning step of `reassemble_chunks_with_known_keys`:
truncate at the first `.part` occurrence (case-insensitive, only when
it is not at position 0). -/
def stripAtFirstPart (original : Str) : Str :=
  match findSub dotPartLit (lowerStr original) with
  | some i => if 0 < i then original.take i else original
  | none => original

/-- Second cleaning step: append `.tif` unless the name already ends in
`.tif`/`.tiff` case-insensitively. -/
def ensureTifExt (c1 : Str) : Str :=
  if endsWithS (lowerStr c1) tifLit || endsWithS (lowerStr c1) tiffLit then c1
  else c1 ++ tifLit

/-- The `clean_filename` computation of
`reassemble_chunks_with_known_keys` (source lines 471-479). -/
def clean_filename (original : Str) : Str :=
  ensureTifExt (stripAtFirstPart original)

/-- `f"{booking_id}/reassembled_{resource_id}_{clean_filename}"`. -/
def outputKeyOf (booking rid cf : Str) : Str :=
  booking ++ slashLit ++ reassembledLit ++ rid ++ usLit ++ cf

/-- `f"geotiff_{int(time.time())}_{uuid.uuid4().hex[:8]}"`; the decimal
rendering of the clock is taken as an input string. -/
def mkResourceId (timeStr uuid8 : Str) : Str :=
  geotiffLit ++ timeStr ++ usLit ++ uuid8

/-- `re.sub(r'\.part\d+$', '', filename)` (source line 848,
case-sensitive). -/
def stripPartSuffix (s : Str) : Str :=
  let ds := (s.reverse.takeWhile Char.isDigit).reverse
  if ds = [] then s
  else
    let rest := s.take (s.length - ds.length)
    if endsWithS rest dotPartLit then rest.take (rest.length - 5) else s

/-- The original filename carries a `.partN` suffix (digits nonempty),
judged case-insensitively like the cleaning step. -/
def hasPartNumSuffix (s : Str) : Bool :=
  let low := lowerStr s
  let ds := low.reverse.takeWhile Char.isDigit
  !ds.isEmpty && endsWithS (low.take (low.length - ds.length)) dotPartLit

/-!  ## Merge pipeline (source lines 462-975)

Every effect of `reassemble_chunks_with_known_keys` and its callees is
made explicit: `headLen` is `head_object`'s ContentLength (`none` = the
call raises), `getBytes` is `get_object`'s payload, `copyFails i` says
whether `upload_part_copy` of part number `i` raises, `completeFail`
whether `complete_multipart_upload` raises, and `presignedUrl` the URL
`generate_presigned_url` returns.  Exceptions raised inside the merge
are caught by the function's own `except` block, which returns a
failure dict — they never propagate to the caller. -/

structure MergeOracles where
  headLen : Str → Option Nat
  getBytes : Str → List Nat
  copyFails : Nat → Bool
  completeFail : Bool
  presignedUrl : Str

structure MergeResult where
  success : Bool
  resourceId : Option Str := none
  fileName : Option Str := none
  s3Key : Option Str := none
  size : Option Nat := none
  url : Option Str := none
  deriving DecidableEq, Repr

structure MergeEffects where
  multipartOpened : Bool := false
  multipartAborted : Bool := false
  multipartCompleted : Bool := false
  objectWritten : Option (Str × List Nat) := none
  deriving DecidableEq, Repr

def mergeFailure : MergeResult := { success := false }

def noEffects : MergeEffects := {}

/-- `head_object` over each sorted chunk; any failure raises
(`Could not access chunk`), caught by the outer handler. -/
def headSizes (headLen : Str → Option Nat) : List Str → Option (List Nat)
  | [] => some []
  | k :: ks =>
    match headLen k, headSizes headLen ks with
    | some s, some rest => some (s :: rest)
    | _, _ => none

/-- Part number (1-based, ascending loop order) of the first
`upload_part_copy` that raises, over `n` parts. -/
def firstCopyFail (copyFails : Nat → Bool) (n : Nat) : Option Nat :=
  ((List.range n).map (· + 1)).find? copyFails

/-- `finalize_reassembly` (source lines 656-737): upsert the
ResourceRecord keyed by the given `resource_id`, mark the session
completed, and return the success payload.  `objSize` is the
ContentLength of the merged object. -/
def finalize_reassembly (st : SysState) (booking sid outKey rid fname : Str)
    (objSize now : Nat) (url : Str) : SysState × MergeResult :=
  let r0 : ResourceRecord :=
    { resourceId := rid, bookingId := booking, fileName := fname, s3Key := outKey,
      url := url, size := objSize, sessionId := sid, createdAt := now }
  let st1 : SysState := { st with resources := aupsert rid r0 st.resources }
  let st2 := completeSessionUpdate st1 booking sid rid url now
  (st2, { success := true, resourceId := some rid, fileName := some fname,
          s3Key := some outKey, size := some objSize, url := some url })

/-- The byte concatenation done by `reassemble_by_direct_download`
(source lines 621-631): download every chunk in the given order and
join the payloads. -/
def directConcat (getBytes : Str → List Nat) (chunk_keys : List Str) : List Nat :=
  (chunk_keys.map getBytes).flatten

/-- `reassemble_by_direct_download` (source lines 603-654): concatenate
the chunks, `put_object` the result, and finalize with
`manifest.get('originalFileName', f"reassembled_{session_id}.tif")` as
the recorded filename. -/
def reassemble_by_direct_download (st : SysState) (booking sid : Str) (manifest : Manifest)
    (chunk_keys : List Str) (outKey rid : Str) (now : Nat) (orc : MergeOracles) :
    SysState × MergeResult × MergeEffects :=
  let combined := directConcat orc.getBytes chunk_keys
  let fname := manifest.originalFileName.getD (reassembledLit ++ sid ++ tifLit)
  let fin := finalize_reassembly st booking sid outKey rid fname combined.length now
    orc.presignedUrl
  (fin.1, fin.2, { objectWritten := some (outKey, combined) })

/-- The multipart (segmented-copy) branch (source lines 539-592): open
the upload, copy parts 1..n in ascending order, complete.  On any
failure the upload is aborted and the exception re-raised — the outer
handler then returns a failure dict with no database write. -/
def runMultipartPath (st : SysState) (booking sid : Str) (sorted_chunks : List Str)
    (outKey rid cf : Str) (now : Nat) (orc : MergeOracles) :
    SysState × MergeResult × MergeEffects :=
  match firstCopyFail orc.copyFails sorted_chunks.length with
  | some _ => (st, mergeFailure, { multipartOpened := true, multipartAborted := true })
  | none =>
    if orc.completeFail then
      (st, mergeFailure, { multipartOpened := true, multipartAborted := true })
    else
      let assembled := directConcat orc.getBytes sorted_chunks
      let fin := finalize_reassembly st booking sid outKey rid cf assembled.length now
        orc.presignedUrl
      (fin.1, fin.2, { multipartOpened := true, multipartCompleted := true,
                       objectWritten := some (outKey, assembled) })

/-- `reassemble_chunks_with_known_keys` (source lines 462-601): clean
the filename, generate the output key, sort the chunks by part number,
fetch sizes, pick a strategy and run it.  The function's outer `except`
turns every raised error into a failure dict, so the state is unchanged
on all failure paths. -/
def reassemble_chunks_with_known_keys (st : SysState) (booking : Str) (manifest : Manifest)
    (chunk_keys : List Str) (rid : Str) (now : Nat) (orc : MergeOracles) :
    SysState × MergeResult × MergeEffects :=
  match manifest.sessionId, manifest.originalFileName with
  | some sid, some ofn =>
    if sid = [] ∨ ofn = [] then (st, mergeFailure, noEffects)
    else
      let cf := clean_filename ofn
      let outKey := outputKeyOf booking rid cf
      let sorted_chunks := sortByPartNum chunk_keys
      match headSizes orc.headLen sorted_chunks with
      | none => (st, mergeFailure, noEffects)
      | some chunk_sizes =>
        if selectsDirectPath sorted_chunks chunk_sizes then
          reassemble_by_direct_download st booking sid manifest sorted_chunks outKey rid now orc
        else
          runMultipartPath st booking sid sorted_chunks outKey rid cf now orc
  | _, _ => (st, mergeFailure, noEffects)

def missingFieldsMsg : Str := "Manifest missing required fields".data

/-- The `No files found ...` error message (bucket/search-path
formatting elided). -/
def noFilesMsg : Str := "No files found".data

def noValidChunksMsg (sid : Str) : Str :=
  "No valid chunks found for session ".data ++ sid

/-- `reassemble_chunks_from_manifest` (source lines 884-975).  Errors
raised before the merge reach this function's `except`, which marks the
session failed (when the session id is truthy); errors inside the merge
are already converted to failure dicts by
`reassemble_chunks_with_known_keys` and trigger no status update. -/
def reassemble_chunks_from_manifest (st : SysState) (booking : Str) (manifest : Manifest)
    (listing : List Str) (rid : Str) (now : Nat) (orc : MergeOracles) :
    SysState × MergeResult × MergeEffects :=
  match manifest.sessionId with
  | none => (st, mergeFailure, noEffects)
  | some sid =>
    if sid = [] then (st, mergeFailure, noEffects)
    else
      match manifest.originalFileName with
      | none => (failSessionUpdate st booking sid missingFieldsMsg now, mergeFailure, noEffects)
      | some ofn =>
        if ofn = [] then
          (failSessionUpdate st booking sid missingFieldsMsg now, mergeFailure, noEffects)
        else if listing = [] then
          (failSessionUpdate st booking sid noFilesMsg now, mergeFailure, noEffects)
        else
          let chunk_keys := discoverFromManifest booking sid listing
          if chunk_keys = [] then
            (failSessionUpdate st booking sid (noValidChunksMsg sid) now, mergeFailure, noEffects)
          else reassemble_chunks_with_known_keys st booking manifest chunk_keys rid now orc

/-- `update_item` setting `OriginalResourceId` on a resource record
(source lines 858-871); creates a blank item when absent, as DynamoDB
does. -/
def setOriginalResourceId (st : SysState) (rid fr : Str) : SysState :=
  let r0 := (alookup rid st.resources).getD {}
  { st with resources := aupsert rid { r0 with originalResourceId := some fr } st.resources }

/-- `reassemble_chunks_by_session` (source lines 739-882): discover
chunks without a manifest, fabricate a manifest, merge, then optionally
link the caller-supplied final resource id.  All raised errors are
caught by this function's own `except`, which returns a failure dict
and writes nothing. -/
def reassemble_chunks_by_session (st : SysState) (booking sid : Str)
    (final_resource_id base_file_name : Option Str) (listing : List Str)
    (meta : Str → Option Str) (rid : Str) (now : Nat) (orc : MergeOracles) :
    SysState × MergeResult × MergeEffects :=
  if listing = [] then (st, mergeFailure, noEffects)
  else
    let chunk_keys := discoverBySession booking sid listing meta
    if chunk_keys = [] then (st, mergeFailure, noEffects)
    else
      let derived :=
        match chunk_keys with
        | [] => reassembledLit ++ sid ++ tifLit
        | k :: _ => stripPartSuffix (lastComponent k)
      let ofn :=
        match base_file_name with
        | some b => if b = [] then derived else b
        | none => derived
      let fake_manifest : Manifest :=
        { sessionId := some sid, originalFileName := some ofn,
          totalChunks := some chunk_keys.length }
      let run := reassemble_chunks_with_known_keys st booking fake_manifest chunk_keys rid now orc
      match final_resource_id, run.2.1.resourceId, run.2.1.success with
      | some fr, some r, true =>
        if fr = [] then run else (setOriginalResourceId run.1 r fr, run.2.1, run.2.2)
      | _, _, _ => run

/-!  ## Properties of the part-number sort (claim C1) -/

theorem insertPart_perm (x : Str) (l : List Str) : (insertPart x l).Perm (x :: l) := by
  induction l with
  | nil => exact List.Perm.refl _
  | cons y ys ih =>
    by_cases h : extract_part_num x ≤ extract_part_num y
    · simp only [insertPart, if_pos h]
      exact List.Perm.refl _
    · simp only [insertPart, if_neg h]
      exact (ih.cons y).trans (List.Perm.swap x y ys)

theorem pairwise_insertPart (x : Str) (l : List Str)
    (h : l.Pairwise fun a b => extract_part_num a ≤ extract_part_num b) :
    (insertPart x l).Pairwise fun a b => extract_part_num a ≤ extract_part_num b := by
  induction l with
  | nil => simp [insertPart]
  | cons y ys ih =>
    rw [List.pairwise_cons] at h
    obtain ⟨hy, hys⟩ := h
    by_cases hxy : extract_part_num x ≤ extract_part_num y
    · simp only [insertPart, if_pos hxy]
      refine List.Pairwise.cons ?_ (List.Pairwise.cons hy hys)
      intro b hb
      rcases List.mem_cons.1 hb with rfl | hb
      · exact hxy
      · exact le_trans hxy (hy b hb)
    · simp only [insertPart, if_neg hxy]
      refine List.Pairwise.cons ?_ (ih hys)
      intro b hb
      have hb' : b ∈ x :: ys := (insertPart_perm x ys).mem_iff.1 hb
      rcases List.mem_cons.1 hb' with rfl | hb'
      · exact le_of_lt (Nat.lt_of_not_le hxy)
      · exact hy b hb'

theorem filter_insertPart (x : Str) (l : List Str) (n : Nat) :
    (insertPart x l).filter (fun k => extract_part_num k == n)
      = if extract_part_num x = n
        then x :: l.filter (fun k => extract_part_num k == n)
        else l.filter (fun k => extract_part_num k == n) := by
  induction l with
  | nil => by_cases hx : extract_part_num x = n <;> simp [insertPart, hx]
  | cons y ys ih =>
    simp only [insertPart]
    by_cases hxy : extract_part_num x ≤ extract_part_num y
    · rw [if_pos hxy]
      by_cases hx : extract_part_num x = n <;>
        by_cases hy : extract_part_num y = n <;>
        simp [List.filter_cons, hx, hy]
    · rw [if_neg hxy]
      by_cases hx : extract_part_num x = n
      · by_cases hy : extract_part_num y = n
        · exact absurd (by rw [hx, hy]) hxy
        · simp [List.filter_cons, hx, hy, ih]
      · by_cases hy : extract_part_num y = n <;>
          simp [List.filter_cons, hx, hy, ih]

theorem sortByPartNum_perm (l : List Str) : (sortByPartNum l).Perm l := by
  induction l with
  | nil => exact List.Perm.refl _
  | cons x xs ih => exact (insertPart_perm x (sortByPartNum xs)).trans (ih.cons x)

theorem sortByPartNum_pairwise (l : List Str) :
    (sortByPartNum l).Pairwise fun a b => extract_part_num a ≤ extract_part_num b := by
  induction l with
  | nil => simp [sortByPartNum]
  | cons x xs ih => exact pairwise_insertPart x (sortByPartNum xs) ih

theorem sortByPartNum_filter (l : List Str) (n : Nat) :
    (sortByPartNum l).filter (fun k => extract_part_num k == n)
      = l.filter (fun k => extract_part_num k == n) := by
  induction l with
  | nil => rfl
  | cons x xs ih =>
    simp only [sortByPartNum]
    rw [filter_insertPart]
    by_cases hx : extract_part_num x = n <;> simp [List.filter_cons, hx, ih]

def kPart0 : Str := "f.part0".data
def kPart1 : Str := "f.part1".data
def kPart2 : Str := "f.part2".data

theorem perm_pair {u v a b : Str} (h : ([u, v] : List Str).Perm [a, b]) :
    (u = a ∧ v = b) ∨ (u = b ∧ v = a) := by
  have hu : u ∈ [a, b] := h.subset (by simp)
  rcases List.mem_cons.1 hu with rfl | hu
  · left
    have hv : v ∈ [b] := h.cons_inv.subset (by simp)
    simp only [List.mem_singleton] at hv
    exact ⟨rfl, hv⟩
  · have hu' : u = b := by simpa using hu
    subst hu'
    right
    have h2 : ([u, v] : List Str).Perm [u, a] := h.trans (List.Perm.swap u a [])
    have hv : v ∈ [a] := h2.cons_inv.subset (by simp)
    simp only [List.mem_singleton] at hv
    exact ⟨rfl, hv⟩

theorem sortByPartNum_of_perm_three (l : List Str)
    (h : l.Perm [kPart0, kPart2, kPart1]) :
    sortByPartNum l = [kPart0, kPart1, kPart2] := by
  have hlen : l.length = 3 := by simpa using h.length_eq
  obtain ⟨u, v, w, rfl⟩ : ∃ u v w, l = [u, v, w] := by
    match l, hlen with
    | [u, v, w], _ => exact ⟨u, v, w, rfl⟩
  have hu : u ∈ [kPart0, kPart2, kPart1] := h.subset (by simp)
  simp only [List.mem_cons, List.not_mem_nil, or_false] at hu
  rcases hu with rfl | rfl | rfl
  · rcases perm_pair h.cons_inv with ⟨rfl, rfl⟩ | ⟨rfl, rfl⟩ <;> decide
  · have h2 := (h.trans (List.Perm.swap kPart2 kPart0 [kPart1])).cons_inv
    rcases perm_pair h2 with ⟨rfl, rfl⟩ | ⟨rfl, rfl⟩ <;> decide
  · have h3 : ([kPart0, kPart2, kPart1] : List Str).Perm [kPart1, kPart0, kPart2] :=
      ((List.Perm.swap kPart1 kPart2 []).cons kPart0).trans (List.Perm.swap kPart1 kPart0 [kPart2])
    have h2 := (h.trans h3).cons_inv
    rcases perm_pair h2 with ⟨rfl, rfl⟩ | ⟨rfl, rfl⟩ <;> decide

/-- C1: `sorted(chunk_keys, key=extract_part_num)` is a stable sort by
the extracted part index (it permutes the input, its extracted indices
are ascending, and keys with equal indices — in particular index 0 for
keys where no pattern matches — keep their relative input order), and
the direct download/concatenate path merges the chunks into the byte
concatenation in that sorted order: chunks named `f.part0`, `f.part2`,
`f.part1`, presented in any input order, merge to part0 ‖ part1 ‖
part2. -/
theorem claim_C1_stable_sort_and_direct_merge :
    (∀ keys : List Str,
        (sortByPartNum keys).Perm keys
      ∧ (sortByPartNum keys).Pairwise (fun a b => extract_part_num a ≤ extract_part_num b)
      ∧ ∀ n : Nat, (sortByPartNum keys).filter (fun k => extract_part_num k == n)
            = keys.filter (fun k => extract_part_num k == n))
  ∧ (∀ (getBytes : Str → List Nat) (l : List Str),
      l.Perm [kPart0, kPart2, kPart1] →
      directConcat getBytes (sortByPartNum l)
        = getBytes kPart0 ++ getBytes kPart1 ++ getBytes kPart2) := by
  constructor
  · intro keys
    exact ⟨sortByPartNum_perm keys, sortByPartNum_pairwise keys,
      fun n => sortByPartNum_filter keys n⟩
  · intro getBytes l h
    rw [sortByPartNum_of_perm_three l h]
    simp [directConcat, List.append_assoc]

def wBytes : Str → List Nat :=
  fun k => if k = kPart0 then [10] else if k = kPart1 then [11] else [12]

theorem claim_C1_witness :
    ([kPart2, kPart0, kPart1] : List Str).Perm [kPart0, kPart2, kPart1]
  ∧ directConcat wBytes (sortByPartNum [kPart2, kPart0, kPart1]) = [10, 11, 12] := by
  refine ⟨by decide, ?_⟩
  have h := claim_C1_stable_sort_and_direct_merge.2 wBytes [kPart2, kPart0, kPart1] (by decide)
  rw [h]
  decide

/-!  ## Strategy selection characterization (claim C5) -/

theorem exists_small_cons (s : Nat) (rest : List Nat) (i total : Nat) :
    (∃ j, j < (s :: rest).length ∧ i + j < total - 1 ∧ (s :: rest).getD j 0 < min_part_size)
      ↔ (i < total - 1 ∧ s < min_part_size)
        ∨ (∃ j, j < rest.length ∧ (i + 1) + j < total - 1 ∧ rest.getD j 0 < min_part_size) := by
  constructor
  · rintro ⟨j, hj, hlt, hsz⟩
    cases j with
    | zero => exact Or.inl ⟨by omega, by simpa using hsz⟩
    | succ j' => exact Or.inr ⟨j', by simpa using hj, by omega, by simpa using hsz⟩
  · rintro (⟨h1, h2⟩ | ⟨j, hj, hlt, hsz⟩)
    · exact ⟨0, by simp, by omega, by simpa using h2⟩
    · exact ⟨j + 1, by simpa using hj, by omega, by simpa using hsz⟩

theorem small_chunks_aux_ne_nil (l : List Nat) : ∀ i total : Nat,
    (small_chunks_aux total i l ≠ [] ↔
      ∃ j, j < l.length ∧ i + j < total - 1 ∧ l.getD j 0 < min_part_size) := by
  induction l with
  | nil => intro i total; simp [small_chunks_aux]
  | cons s rest ih =>
    intro i total
    rw [exists_small_cons]
    by_cases h1 : i < total - 1
    · by_cases h2 : s < min_part_size
      · simp [small_chunks_aux, h1, h2]
      · simp [small_chunks_aux, h1, h2, ih (i + 1) total]
    · have h2 : ¬(i < total - 1 ∧ s < min_part_size) := fun hc => h1 hc.1
      simp [small_chunks_aux, h1, h2, ih (i + 1) total]

/-- C5: the engine picks the direct download/concatenate path iff some
chunk other than the last is smaller than the 5 MiB minimum segment
size, and the segmented-copy path otherwise; sizes
[3 MiB, 3 MiB, 1 MiB] select the direct path and [6 MiB, 6 MiB, 1 MiB]
the segmented-copy path. -/
theorem claim_C5_strategy_selection :
    (∀ (keys : List Str) (sizes : List Nat), keys.length = sizes.length →
      (selectsDirectPath keys sizes = true ↔
        ∃ i, i + 1 < sizes.length ∧ sizes.getD i 0 < min_part_size))
  ∧ selectsDirectPath ["a".data, "b".data, "c".data]
      [3 * 1024 * 1024, 3 * 1024 * 1024, 1024 * 1024] = true
  ∧ selectsDirectPath ["a".data, "b".data, "c".data]
      [6 * 1024 * 1024, 6 * 1024 * 1024, 1024 * 1024] = false := by
  refine ⟨?_, by decide, by decide⟩
  intro keys sizes hlen
  have hne := small_chunks_aux_ne_nil sizes 0 sizes.length
  constructor
  · intro hsel
    have hand : (small_chunks sizes).isEmpty = false ∧ 1 < keys.length := by
      simpa [selectsDirectPath, Bool.and_eq_true] using hsel
    have hnil : small_chunks sizes ≠ [] := by
      intro hc
      rw [hc] at hand
      simp at hand
    obtain ⟨j, hj, hlt, hsz⟩ := (small_chunks_aux_ne_nil sizes 0 sizes.length).1 hnil
    exact ⟨j, by omega, hsz⟩
  · rintro ⟨i, hi, hsz⟩
    have hnil : small_chunks sizes ≠ [] :=
      (small_chunks_aux_ne_nil sizes 0 sizes.length).2 ⟨i, by omega, by omega, hsz⟩
    have hni : (small_chunks sizes).isEmpty = false := by
      cases hem : small_chunks sizes with
      | nil => exact absurd hem hnil
      | cons a as => simp
    have hklen : 1 < keys.length := by omega
    simp [selectsDirectPath, hni, hklen]

theorem claim_C5_witness :
    (["a".data, "b".data, "c".data] : List Str).length
        = ([3 * 1024 * 1024, 3 * 1024 * 1024, 1024 * 1024] : List Nat).length
  ∧ (selectsDirectPath ["a".data, "b".data, "c".data]
        [3 * 1024 * 1024, 3 * 1024 * 1024, 1024 * 1024] = true ↔
      ∃ i, i + 1 < ([3 * 1024 * 1024, 3 * 1024 * 1024, 1024 * 1024] : List Nat).length
        ∧ ([3 * 1024 * 1024, 3 * 1024 * 1024, 1024 * 1024] : List Nat).getD i 0
            < min_part_size) :=
  ⟨by decide, claim_C5_strategy_selection.1 _ _ (by decide)⟩

/-!  ## Association-list lemmas -/

theorem alookup_aupsert {κ α : Type} [DecidableEq κ] (k : κ) (v : α) (l : List (κ × α)) :
    alookup k (aupsert k v l) = some v := by
  induction l with
  | nil => simp [aupsert, alookup]
  | cons p rest ih =>
    obtain ⟨k', v'⟩ := p
    by_cases h : k' = k
    · simp [aupsert, alookup, h]
    · simp [aupsert, alookup, h, ih]

theorem alookup_aupsert_ne {κ α : Type} [DecidableEq κ] (k k' : κ) (v : α)
    (l : List (κ × α)) (h : k' ≠ k) : alookup k' (aupsert k v l) = alookup k' l := by
  have hne : k ≠ k' := fun hc => h hc.symm
  induction l with
  | nil => simp [aupsert, alookup, hne]
  | cons p rest ih =>
    obtain ⟨k0, v0⟩ := p
    by_cases h0 : k0 = k
    · subst h0
      simp [aupsert, alookup, hne]
    · simp [aupsert, alookup, h0, ih]

theorem aupsert_length_of_some {κ α : Type} [DecidableEq κ] (k : κ) (v w : α)
    (l : List (κ × α)) (h : alookup k l = some w) :
    (aupsert k v l).length = l.length := by
  induction l with
  | nil => simp [alookup] at h
  | cons p rest ih =>
    obtain ⟨k0, v0⟩ := p
    by_cases h0 : k0 = k
    · simp [aupsert, h0]
    · rw [alookup, if_neg h0] at h
      simp [aupsert, h0, ih h]

theorem aupsert_length_of_none {κ α : Type} [DecidableEq κ] (k : κ) (v : α)
    (l : List (κ × α)) (h : alookup k l = none) :
    (aupsert k v l).length = l.length + 1 := by
  induction l with
  | nil => simp [aupsert]
  | cons p rest ih =>
    obtain ⟨k0, v0⟩ := p
    by_cases h0 : k0 = k
    · rw [alookup, if_pos h0] at h
      cases h
    · rw [alookup, if_neg h0] at h
      simp [aupsert, h0, ih h]

/-- Status attribute of a session record, read through the table. -/
def sessionStatusOf (st : SysState) (booking sid : Str) : Option SessionStatus :=
  (alookup (sessionKey booking sid) st.sessions).bind fun r => r.status

def emptyState : SysState := {}

/-!  ## Claim C3: status state machine -/

def bTest : Str := "b1".data
def sidTest : Str := "s1".data
def mkTest : Str := "b1/s1_manifest.json".data

def mTest : Manifest :=
  { sessionId := some sidTest, originalFileName := some "scan.tif".data,
    totalChunks := some 2 }

def stC3a : SysState := register_chunks_from_manifest emptyState bTest mTest mkTest 10
def stC3b : SysState := completeSessionUpdate stC3a bTest sidTest "r1".data "u".data 20
def stC3c : SysState := register_chunks_from_manifest stC3b bTest mTest mkTest 30

/-- C3 fails on the code: after a session completes, re-registering the
very same manifest (`put_item` replaces the whole item) moves its
status from `completed` back to `pending`. -/
theorem claim_C3_counterexample :
    sessionStatusOf stC3b bTest sidTest = some SessionStatus.completed
  ∧ sessionStatusOf stC3c bTest sidTest = some SessionStatus.pending := by decide

/-- C3 amended: every status write of the subsystem is unconditional —
manifest registration sets `pending`, the finalizer's session update
sets `completed`, the manifest-path failure handler sets `failed`, and
the availability write leaves the status untouched.  No operation
checks the current status first, so `completed`/`failed` are terminal
for merge, failure and availability writes, but re-resolving a manifest
regresses a terminal session to `pending`. -/
theorem claim_C3_amended :
    (∀ (st : SysState) (booking : Str) (manifest : Manifest) (mk0 : Str) (now : Nat)
        (sid ofn : Str),
      manifest.sessionId = some sid → sid ≠ [] →
      manifest.originalFileName = some ofn → ofn ≠ [] →
      sessionStatusOf (register_chunks_from_manifest st booking manifest mk0 now) booking sid
        = some SessionStatus.pending)
  ∧ (∀ (st : SysState) (booking sid rid url : Str) (now : Nat),
      sessionStatusOf (completeSessionUpdate st booking sid rid url now) booking sid
        = some SessionStatus.completed)
  ∧ (∀ (st : SysState) (booking sid msg : Str) (now : Nat),
      sessionStatusOf (failSessionUpdate st booking sid msg now) booking sid
        = some SessionStatus.failed)
  ∧ (∀ (st : SysState) (booking sid : Str) (count now : Nat),
      sessionStatusOf (availabilityPersist st booking sid count now) booking sid
        = sessionStatusOf st booking sid) := by
  refine ⟨?_, ?_, ?_, ?_⟩
  · intro st booking manifest mk0 now sid ofn hsid hsidne hofn hofnne
    simp [register_chunks_from_manifest, hsid, hofn, hsidne, hofnne, sessionStatusOf,
      alookup_aupsert]
  · intro st booking sid rid url now
    simp [completeSessionUpdate, updSession, sessionStatusOf, alookup_aupsert]
  · intro st booking sid msg now
    simp [failSessionUpdate, updSession, sessionStatusOf, alookup_aupsert]
  · intro st booking sid count now
    cases halook : alookup (sessionKey booking sid) st.sessions with
    | none =>
      simp [availabilityPersist, updSession, sessionStatusOf, alookup_aupsert, halook,
        emptySessionRec]
    | some r =>
      simp [availabilityPersist, updSession, sessionStatusOf, alookup_aupsert, halook]

theorem claim_C3_witness :
    sessionStatusOf (register_chunks_from_manifest emptyState bTest mTest mkTest 10)
        bTest sidTest = some SessionStatus.pending :=
  claim_C3_amended.1 emptyState bTest mTest mkTest 10 sidTest "scan.tif".data
    (by decide) (by decide) (by decide) (by decide)

/-!  ## Claim C2: finalization idempotence -/

def c2Keys : List Str := ["b1/s1/scan.tif.part0".data, "b1/s1/scan.tif.part1".data]

def c2Orc : MergeOracles :=
  { headLen := fun _ => some 1, getBytes := fun _ => [7],
    copyFails := fun _ => false, completeFail := false, presignedUrl := "u".data }

def c2Rid1 : Str := mkResourceId "100".data "aaaaaaaa".data
def c2Rid2 : Str := mkResourceId "101".data "bbbbbbbb".data

def c2St0 : SysState := register_chunks_from_manifest emptyState bTest mTest mkTest 10

def c2Run1 : SysState × MergeResult × MergeEffects :=
  reassemble_chunks_with_known_keys c2St0 bTest mTest c2Keys c2Rid1 20 c2Orc

def c2Run2 : SysState × MergeResult × MergeEffects :=
  reassemble_chunks_with_known_keys c2Run1.1 bTest mTest c2Keys c2Rid2 30 c2Orc

/-- C2 fails on the code: every merge invocation generates a fresh
`resource_id` (time + uuid4 suffix), so re-running the merge/finalize
pipeline over an already-completed session returns a different
resourceId and leaves two ResourceRecords in the Resources table. -/
theorem claim_C2_counterexample :
    c2Run1.2.1.success = true
  ∧ c2Run2.2.1.success = true
  ∧ c2Run1.2.1.resourceId = some c2Rid1
  ∧ c2Run2.2.1.resourceId = some c2Rid2
  ∧ c2Rid1 ≠ c2Rid2
  ∧ c2Run2.1.resources.length = 2 := by decide

/-- C2 amended: `finalize_reassembly` is keyed by the resource id it is
handed — called twice with the same id it returns that id both times
and overwrites the same ResourceRecord (no duplicate); but each
pipeline invocation generates a fresh id, and finalizing under an id
that is not yet in the table appends a new ResourceRecord. -/
theorem claim_C2_amended :
    (∀ (st : SysState) (booking sid outKey rid fname : Str) (objSize now now2 : Nat)
        (url : Str),
      ((finalize_reassembly
          (finalize_reassembly st booking sid outKey rid fname objSize now url).1
          booking sid outKey rid fname objSize now2 url).2.resourceId
        = (finalize_reassembly st booking sid outKey rid fname objSize now url).2.resourceId)
      ∧ ((finalize_reassembly
            (finalize_reassembly st booking sid outKey rid fname objSize now url).1
            booking sid outKey rid fname objSize now2 url).1.resources.length
          = (finalize_reassembly st booking sid outKey rid fname objSize now url).1.resources.length))
  ∧ (∀ (st : SysState) (booking sid outKey rid fname : Str) (objSize now : Nat) (url : Str),
      alookup rid st.resources = none →
      (finalize_reassembly st booking sid outKey rid fname objSize now url).1.resources.length
        = st.resources.length + 1) := by
  constructor
  · intro st booking sid outKey rid fname objSize now now2 url
    constructor
    · simp [finalize_reassembly]
    · simp only [finalize_reassembly, completeSessionUpdate, updSession]
      exact aupsert_length_of_some rid _ _ _ (alookup_aupsert rid _ st.resources)
  · intro st booking sid outKey rid fname objSize now url h
    simp only [finalize_reassembly, completeSessionUpdate, updSession]
    exact aupsert_length_of_none rid _ st.resources h

theorem claim_C2_witness :
    alookup c2Rid1 emptyState.resources = none
  ∧ (finalize_reassembly emptyState bTest sidTest "ok".data c2Rid1 "scan.tif".data
      2 20 "u".data).1.resources.length = emptyState.resources.length + 1 :=
  ⟨by decide, claim_C2_amended.2 emptyState bTest sidTest "ok".data c2Rid1 "scan.tif".data
    2 20 "u".data (by decide)⟩

/-!  ## Claims C4 and C7: the availability check -/

theorem probeRun_snd (acc : Str → Bool) (l : List Str) : (probeRun acc l).2 = l.all acc := by
  induction l with
  | nil => rfl
  | cons k rest ih => by_cases h : acc k <;> simp [probeRun, h, ih]

theorem probeRun_fst_of_all (acc : Str → Bool) (l : List Str) (h : l.all acc = true) :
    (probeRun acc l).1 = l := by
  induction l with
  | nil => rfl
  | cons k rest ih =>
    rw [List.all_cons, Bool.and_eq_true] at h
    simp [probeRun, h.1, ih h.2]

def c4Item : SessionRec :=
  { status := some SessionStatus.pending, chunksUploaded := some 1, totalChunks := some 1 }

def c4St : SysState := { sessions := [(sessionKey bTest sidTest, c4Item)] }

def c4ItemB : SessionRec :=
  { status := some SessionStatus.pending, chunksUploaded := some 0, totalChunks := some 3 }

def c4StB : SysState := { sessions := [(sessionKey bTest sidTest, c4ItemB)] }

def c4K1 : Str := "b1/s1/f.part1".data
def c4K10 : Str := "b1/s1/f.part10".data
def c4K2 : Str := "b1/s1/f.part2".data

/-- C4 fails on the code in two ways.  First, when the cached
`chunksUploaded` equals `totalChunks` the check answers ready without
discovering or probing anything — here with an empty listing, so the
"ready iff at least N accessible candidates are discovered" biconditional
is false.  Second, the probe targets are the first and last keys of the
*lexicographically* sorted candidates, not of the part-order: with
parts 1, 10, 2 the probed keys are part1 and part2, while part10 is the
part-order last and is never probed. -/
theorem claim_C4_counterexample :
    (check_chunks_availability c4St bTest sidTest 1 [] (fun _ => false) 50).2.ready = true
  ∧ (check_chunks_availability c4StB bTest sidTest 3 [c4K1, c4K10, c4K2]
      (fun _ => true) 50).2.ready = true
  ∧ (check_chunks_availability c4StB bTest sidTest 3 [c4K1, c4K10, c4K2]
      (fun _ => true) 50).2.probedKeys = [c4K1, c4K2]
  ∧ c4K10 ∉ (check_chunks_availability c4StB bTest sidTest 3 [c4K1, c4K10, c4K2]
      (fun _ => true) 50).2.probedKeys
  ∧ extract_part_num c4K1 < extract_part_num c4K10
  ∧ extract_part_num c4K2 < extract_part_num c4K10 := by decide

/-- C4 amended: the check answers ready iff the session record exists
and either its cached `chunksUploaded` already equals `totalChunks`
(no discovery, no probing), or at least `totalChunks` candidate keys
(containing `part`, manifests excluded) are in the listing and probing
the first — and, past one candidate, the last — key of the
*lexicographically* sorted candidates succeeds.  Below-count
invocations answer not-ready, and a failed probe answers not-ready
rather than raising. -/
theorem claim_C4_amended :
    ∀ (st : SysState) (booking sid : Str) (total : Nat) (listing : List Str)
      (accessible : Str → Bool) (now : Nat),
      ((check_chunks_availability st booking sid total listing accessible now).2.ready = true ↔
        ∃ item, alookup (sessionKey booking sid) st.sessions = some item ∧
          (item.chunksUploaded.getD 0 = total ∨
            (total ≤ (listing.filter isChunkCandidate).length ∧
              (firstLastProbes (sortLexS (listing.filter isChunkCandidate))).all accessible
                = true)))
    ∧ (∀ item, alookup (sessionKey booking sid) st.sessions = some item →
        item.chunksUploaded.getD 0 ≠ total →
        total ≤ (listing.filter isChunkCandidate).length →
        (firstLastProbes (sortLexS (listing.filter isChunkCandidate))).all accessible = true →
        (check_chunks_availability st booking sid total listing accessible now).2.probedKeys
          = firstLastProbes (sortLexS (listing.filter isChunkCandidate)))
    ∧ (∀ item, alookup (sessionKey booking sid) st.sessions = some item →
        item.chunksUploaded.getD 0 ≠ total →
        (listing.filter isChunkCandidate).length < total →
        (check_chunks_availability st booking sid total listing accessible now).2.probedKeys = []
        ∧ (check_chunks_availability st booking sid total listing accessible now).2.ready
            = false) := by
  intro st booking sid total listing accessible now
  refine ⟨?_, ?_, ?_⟩
  · cases hlook : alookup (sessionKey booking sid) st.sessions with
    | none => simp [check_chunks_availability, hlook]
    | some item =>
      by_cases hc : item.chunksUploaded.getD 0 = total
      · simp [check_chunks_availability, hlook, hc]
      · by_cases hcount : total ≤ (listing.filter isChunkCandidate).length
        · by_cases hall : (firstLastProbes (sortLexS (listing.filter isChunkCandidate))).all
              accessible = true
          · simp [check_chunks_availability, hlook, hc, hcount, probeRun_snd, hall]
          · simp [check_chunks_availability, hlook, hc, hcount, probeRun_snd, hall,
              Bool.not_eq_true] at hall ⊢
        · simp [check_chunks_availability, hlook, hc, hcount]
  · intro item hlook hc hcount hall
    simp [check_chunks_availability, hlook, hc, hcount, probeRun_snd, hall,
      probeRun_fst_of_all accessible _ hall]
  · intro item hlook hc hcount
    have hnc : ¬ total ≤ (listing.filter isChunkCandidate).length := by omega
    simp [check_chunks_availability, hlook, hc, hnc]

theorem claim_C4_witness :
    alookup (sessionKey bTest sidTest) c4StB.sessions = some c4ItemB
  ∧ c4ItemB.chunksUploaded.getD 0 ≠ 3
  ∧ ([c4K1, c4K10, c4K2].filter isChunkCandidate).length < 4
  ∧ (check_chunks_availability c4StB bTest sidTest 4 [c4K1, c4K10, c4K2]
      (fun _ => true) 50).2.ready = false :=
  ⟨by decide, by decide, by decide,
    ((claim_C4_amended c4StB bTest sidTest 4 [c4K1, c4K10, c4K2] (fun _ => true) 50).2.2
      c4ItemB (by decide) (by decide) (by decide)).2⟩

/-- chunksUploaded attribute of a session record, read through the table. -/
def sessionCountOf (st : SysState) (booking sid : Str) : Option Nat :=
  (alookup (sessionKey booking sid) st.sessions).bind fun r => r.chunksUploaded

/-- lastUpdated attribute of a session record, read through the table. -/
def sessionUpdatedOf (st : SysState) (booking sid : Str) : Option Nat :=
  (alookup (sessionKey booking sid) st.sessions).bind fun r => r.lastUpdated

/-- C7 fails on the code: the cached-count shortcut (first two
conjuncts, outcome ready) and a failed probe (last two conjuncts,
outcome not-ready) both return before the
`chunksUploaded`/`lastUpdated` write, leaving the table untouched. -/
theorem claim_C7_counterexample :
    (check_chunks_availability c4St bTest sidTest 1 [] (fun _ => false) 50).2.persisted = false
  ∧ (check_chunks_availability c4St bTest sidTest 1 [] (fun _ => false) 50).1 = c4St
  ∧ (check_chunks_availability c4StB bTest sidTest 1 [c4K1] (fun _ => false) 50).2.persisted
      = false
  ∧ (check_chunks_availability c4StB bTest sidTest 1 [c4K1] (fun _ => false) 50).1 = c4StB := by
  decide

/-- C7 amended: the availability check persists the freshly discovered
count and a fresh lastUpdated exactly when the session record exists,
its cached count differs from `totalChunks`, and either the discovered
count is below `totalChunks` or every probe succeeds; the
missing-record, cached-equality and failed-probe exits write nothing. -/
theorem claim_C7_amended :
    ∀ (st : SysState) (booking sid : Str) (total : Nat) (listing : List Str)
      (accessible : Str → Bool) (now : Nat),
      ((check_chunks_availability st booking sid total listing accessible now).2.persisted
          = true ↔
        ∃ item, alookup (sessionKey booking sid) st.sessions = some item ∧
          item.chunksUploaded.getD 0 ≠ total ∧
          ((listing.filter isChunkCandidate).length < total ∨
            (total ≤ (listing.filter isChunkCandidate).length ∧
              (firstLastProbes (sortLexS (listing.filter isChunkCandidate))).all accessible
                = true)))
    ∧ ((check_chunks_availability st booking sid total listing accessible now).2.persisted
          = true →
        (check_chunks_availability st booking sid total listing accessible now).1
          = availabilityPersist st booking sid (listing.filter isChunkCandidate).length now
        ∧ sessionCountOf
            (check_chunks_availability st booking sid total listing accessible now).1
            booking sid = some (listing.filter isChunkCandidate).length
        ∧ sessionUpdatedOf
            (check_chunks_availability st booking sid total listing accessible now).1
            booking sid = some now)
    ∧ ((check_chunks_availability st booking sid total listing accessible now).2.persisted
          = false →
        (check_chunks_availability st booking sid total listing accessible now).1 = st) := by
  intro st booking sid total listing accessible now
  cases hlook : alookup (sessionKey booking sid) st.sessions with
  | none => simp [check_chunks_availability, hlook]
  | some item =>
    by_cases hc : item.chunksUploaded.getD 0 = total
    · simp [check_chunks_availability, hlook, hc]
    · by_cases hcount : total ≤ (listing.filter isChunkCandidate).length
      · by_cases hall : (firstLastProbes (sortLexS (listing.filter isChunkCandidate))).all
            accessible = true
        · refine ⟨?_, ?_, ?_⟩ <;>
            simp [check_chunks_availability, hlook, hc, hcount, probeRun_snd, hall,
              availabilityPersist, updSession, sessionCountOf, sessionUpdatedOf,
              alookup_aupsert]
        · rw [Bool.not_eq_true] at hall
          have hnlt : ¬ (listing.filter isChunkCandidate).length < total := by omega
          refine ⟨?_, ?_, ?_⟩ <;>
            simp [check_chunks_availability, hlook, hc, hcount, probeRun_snd, hall, hnlt]
      · have hlt : (listing.filter isChunkCandidate).length < total := by omega
        refine ⟨?_, ?_, ?_⟩ <;>
          simp [check_chunks_availability, hlook, hc, hcount, hlt, availabilityPersist,
            updSession, sessionCountOf, sessionUpdatedOf, alookup_aupsert]

theorem claim_C7_witness :
    (check_chunks_availability c4StB bTest sidTest 3 [c4K1, c4K10, c4K2]
        (fun _ => true) 50).2.persisted = true
  ∧ sessionCountOf (check_chunks_availability c4StB bTest sidTest 3 [c4K1, c4K10, c4K2]
        (fun _ => true) 50).1 bTest sidTest = some 3
  ∧ sessionUpdatedOf (check_chunks_availability c4StB bTest sidTest 3 [c4K1, c4K10, c4K2]
        (fun _ => true) 50).1 bTest sidTest = some 50 := by
  have h := (claim_C7_amended c4StB bTest sidTest 3 [c4K1, c4K10, c4K2]
    (fun _ => true) 50).2.1 (by decide)
  exact ⟨by decide, by
    have h2 := h.2.1
    simpa using h2, by
    have h3 := h.2.2
    simpa using h3⟩

/-!  ## Reduction lemmas for the merge pipeline -/

theorem known_keys_eq_direct (st : SysState) (booking : Str) (manifest : Manifest)
    (keys : List Str) (rid : Str) (now : Nat) (orc : MergeOracles) (sid ofn : Str)
    (sizes : List Nat)
    (hsid : manifest.sessionId = some sid) (hsidne : sid ≠ [])
    (hofn : manifest.originalFileName = some ofn) (hofnne : ofn ≠ [])
    (hsizes : headSizes orc.headLen (sortByPartNum keys) = some sizes)
    (hdir : selectsDirectPath (sortByPartNum keys) sizes = true) :
    reassemble_chunks_with_known_keys st booking manifest keys rid now orc
      = reassemble_by_direct_download st booking sid manifest (sortByPartNum keys)
          (outputKeyOf booking rid (clean_filename ofn)) rid now orc := by
  simp [reassemble_chunks_with_known_keys, hsid, hofn, hsidne, hofnne, hsizes, hdir]

theorem known_keys_eq_multipart (st : SysState) (booking : Str) (manifest : Manifest)
    (keys : List Str) (rid : Str) (now : Nat) (orc : MergeOracles) (sid ofn : Str)
    (sizes : List Nat)
    (hsid : manifest.sessionId = some sid) (hsidne : sid ≠ [])
    (hofn : manifest.originalFileName = some ofn) (hofnne : ofn ≠ [])
    (hsizes : headSizes orc.headLen (sortByPartNum keys) = some sizes)
    (hdir : selectsDirectPath (sortByPartNum keys) sizes = false) :
    reassemble_chunks_with_known_keys st booking manifest keys rid now orc
      = runMultipartPath st booking sid (sortByPartNum keys)
          (outputKeyOf booking rid (clean_filename ofn)) rid (clean_filename ofn) now orc := by
  simp [reassemble_chunks_with_known_keys, hsid, hofn, hsidne, hofnne, hsizes, hdir]

theorem multipart_fail_spec (st : SysState) (booking sid : Str) (sorted_chunks : List Str)
    (outKey rid cf : Str) (now : Nat) (orc : MergeOracles)
    (h : firstCopyFail orc.copyFails sorted_chunks.length ≠ none ∨ orc.completeFail = true) :
    runMultipartPath st booking sid sorted_chunks outKey rid cf now orc
      = (st, mergeFailure, { multipartOpened := true, multipartAborted := true }) := by
  cases hf : firstCopyFail orc.copyFails sorted_chunks.length with
  | some i => simp [runMultipartPath, hf]
  | none =>
    rcases h with h | h
    · exact absurd hf h
    · simp [runMultipartPath, hf, h]

theorem multipart_ok_spec (st : SysState) (booking sid : Str) (sorted_chunks : List Str)
    (outKey rid cf : Str) (now : Nat) (orc : MergeOracles)
    (hf : firstCopyFail orc.copyFails sorted_chunks.length = none)
    (hc : orc.completeFail = false) :
    runMultipartPath st booking sid sorted_chunks outKey rid cf now orc
      = (let fin := finalize_reassembly st booking sid outKey rid cf
          (directConcat orc.getBytes sorted_chunks).length now orc.presignedUrl
         (fin.1, fin.2, { multipartOpened := true, multipartCompleted := true,
                          objectWritten := some (outKey, directConcat orc.getBytes sorted_chunks) })) := by
  simp [runMultipartPath, hf, hc]

/-!  ## Claim C6: abort and failure status on segmented-copy failure -/

/-- errorMessage attribute of a session record, read through the table. -/
def sessionErrorOf (st : SysState) (booking sid : Str) : Option Str :=
  (alookup (sessionKey booking sid) st.sessions).bind fun r => r.errorMessage

def c6Orc : MergeOracles :=
  { headLen := fun _ => some (6 * 1024 * 1024), getBytes := fun _ => [7],
    copyFails := fun i => i == 1, completeFail := false, presignedUrl := "u".data }

def c6Run : SysState × MergeResult × MergeEffects :=
  reassemble_chunks_from_manifest c2St0 bTest mTest
    ["b1/s1/scan.tif.part0".data, "b1/s1/scan.tif.part1".data] c2Rid1 20 c6Orc

/-- C6 fails on the code in its status half: when the copy of part 1
raises, the upload is aborted (first two conjuncts hold), but the
exception is swallowed inside `reassemble_chunks_with_known_keys`, so
the failed-status update of `reassemble_chunks_from_manifest` never
runs — the session stays `pending` and `errorMessage` stays unset. -/
theorem claim_C6_counterexample :
    c6Run.2.2.multipartOpened = true
  ∧ c6Run.2.2.multipartAborted = true
  ∧ c6Run.2.1.success = false
  ∧ sessionStatusOf c6Run.1 bTest sidTest = some SessionStatus.pending
  ∧ sessionErrorOf c6Run.1 bTest sidTest = none := by decide

/-- C6 amended: on every failing exit of the segmented-copy path (a
part copy raising, or the completion call raising) the multi-part
upload is aborted before the failure is surfaced, but the failure is
returned as a failure dict with the system state unchanged — the
session is not marked failed and no errorMessage is recorded; a
failure-free run completes the upload without aborting. -/
theorem claim_C6_amended :
    ∀ (st : SysState) (booking : Str) (manifest : Manifest) (keys : List Str) (rid : Str)
      (now : Nat) (orc : MergeOracles) (sid ofn : Str) (sizes : List Nat),
      manifest.sessionId = some sid → sid ≠ [] →
      manifest.originalFileName = some ofn → ofn ≠ [] →
      headSizes orc.headLen (sortByPartNum keys) = some sizes →
      selectsDirectPath (sortByPartNum keys) sizes = false →
      ((firstCopyFail orc.copyFails (sortByPartNum keys).length ≠ none
          ∨ orc.completeFail = true) →
        reassemble_chunks_with_known_keys st booking manifest keys rid now orc
          = (st, mergeFailure, { multipartOpened := true, multipartAborted := true }))
      ∧ (firstCopyFail orc.copyFails (sortByPartNum keys).length = none →
          orc.completeFail = false →
          (reassemble_chunks_with_known_keys st booking manifest keys rid now
              orc).2.2.multipartAborted = false
          ∧ (reassemble_chunks_with_known_keys st booking manifest keys rid now
              orc).2.2.multipartCompleted = true
          ∧ (reassemble_chunks_with_known_keys st booking manifest keys rid now
              orc).2.1.success = true) := by
  intro st booking manifest keys rid now orc sid ofn sizes hsid hsidne hofn hofnne hsizes hdir
  rw [known_keys_eq_multipart st booking manifest keys rid now orc sid ofn sizes
    hsid hsidne hofn hofnne hsizes hdir]
  constructor
  · intro h
    exact multipart_fail_spec st booking sid (sortByPartNum keys) _ rid _ now orc h
  · intro hf hc
    rw [multipart_ok_spec st booking sid (sortByPartNum keys) _ rid _ now orc hf hc]
    simp [finalize_reassembly]

theorem claim_C6_witness :
    reassemble_chunks_with_known_keys c2St0 bTest mTest c2Keys c2Rid1 20 c6Orc
      = (c2St0, mergeFailure, { multipartOpened := true, multipartAborted := true }) :=
  (claim_C6_amended c2St0 bTest mTest c2Keys c2Rid1 20 c6Orc sidTest "scan.tif".data
    [6 * 1024 * 1024, 6 * 1024 * 1024] (by decide) (by decide) (by decide) (by decide)
    (by decide) (by decide)).1 (Or.inl (by decide))

/-!  ## Claim C8: discovery exhausted -/

def c8Listing : List Str := ["b1/other.txt".data]

def c8Run : SysState × MergeResult × MergeEffects :=
  reassemble_chunks_from_manifest c2St0 bTest mTest c8Listing c2Rid1 20 c2Orc

/-- C8 fails on the code: when no chunks correlate to the session,
`reassemble_chunks_from_manifest`'s exception handler marks the session
`failed` (with an errorMessage) even though no caller requested a
terminal outcome — the session is not left `pending` on this trigger
path. -/
theorem claim_C8_counterexample :
    c8Run.2.1.success = false
  ∧ sessionStatusOf c8Run.1 bTest sidTest = some SessionStatus.failed
  ∧ sessionErrorOf c8Run.1 bTest sidTest = some (noValidChunksMsg sidTest) := by decide

/-- C8 amended: the two discovery trigger paths disagree.  When
discovery is exhausted, `reassemble_chunks_by_session` reports failure
to its caller and writes nothing, leaving the session `pending`; but
`reassemble_chunks_from_manifest` marks the session `failed` with an
errorMessage, with no caller-controlled switch for a terminal
outcome. -/
theorem claim_C8_amended :
    (∀ (st : SysState) (booking sid : Str) (frid bfn : Option Str) (listing : List Str)
        (meta : Str → Option Str) (rid : Str) (now : Nat) (orc : MergeOracles),
      (listing = [] ∨ discoverBySession booking sid listing meta = []) →
      reassemble_chunks_by_session st booking sid frid bfn listing meta rid now orc
        = (st, mergeFailure, noEffects))
  ∧ (∀ (st : SysState) (booking : Str) (manifest : Manifest) (listing : List Str)
        (rid : Str) (now : Nat) (orc : MergeOracles) (sid ofn : Str),
      manifest.sessionId = some sid → sid ≠ [] →
      manifest.originalFileName = some ofn → ofn ≠ [] →
      listing ≠ [] → discoverFromManifest booking sid listing = [] →
      reassemble_chunks_from_manifest st booking manifest listing rid now orc
        = (failSessionUpdate st booking sid (noValidChunksMsg sid) now, mergeFailure, noEffects)
      ∧ sessionStatusOf (failSessionUpdate st booking sid (noValidChunksMsg sid) now)
          booking sid = some SessionStatus.failed
      ∧ sessionErrorOf (failSessionUpdate st booking sid (noValidChunksMsg sid) now)
          booking sid = some (noValidChunksMsg sid)) := by
  constructor
  · intro st booking sid frid bfn listing meta rid now orc h
    rcases h with h | h
    · simp [reassemble_chunks_by_session, h]
    · by_cases hl : listing = []
      · simp [reassemble_chunks_by_session, hl]
      · simp [reassemble_chunks_by_session, hl, h]
  · intro st booking manifest listing rid now orc sid ofn hsid hsidne hofn hofnne hlist hdisc
    refine ⟨?_, ?_, ?_⟩
    · simp [reassemble_chunks_from_manifest, hsid, hsidne, hofn, hofnne, hlist, hdisc]
    · simp [failSessionUpdate, updSession, sessionStatusOf, alookup_aupsert]
    · simp [failSessionUpdate, updSession, sessionErrorOf, alookup_aupsert]

theorem claim_C8_witness :
    reassemble_chunks_by_session c2St0 bTest sidTest none none c8Listing (fun _ => none)
        c2Rid1 20 c2Orc = (c2St0, mergeFailure, noEffects)
  ∧ reassemble_chunks_from_manifest c2St0 bTest mTest c8Listing c2Rid1 20 c2Orc
      = (failSessionUpdate c2St0 bTest sidTest (noValidChunksMsg sidTest) 20, mergeFailure,
         noEffects) :=
  ⟨claim_C8_amended.1 c2St0 bTest sidTest none none c8Listing (fun _ => none) c2Rid1 20 c2Orc
      (Or.inr (by decide)),
   (claim_C8_amended.2 c2St0 bTest mTest c8Listing c2Rid1 20 c2Orc sidTest "scan.tif".data
      (by decide) (by decide) (by decide) (by decide) (by decide) (by decide)).1⟩

/-!  ## Claim C9: discovery as a function of the listing -/

theorem mem_dedupFirst (y : Str) (l : List Str) : y ∈ dedupFirst l ↔ y ∈ l := by
  induction l with
  | nil => simp [dedupFirst]
  | cons x xs ih =>
    by_cases hyx : y = x
    · subst hyx; simp [dedupFirst]
    · simp [dedupFirst, List.mem_filter, hyx, ih]

theorem insertGroup_sub (S : List Str) (b k0 : Str) (gs : List (Str × List Str))
    (hgs : ∀ p ∈ gs, ∀ k ∈ p.2, k ∈ S) (hk : k0 ∈ S) :
    ∀ p ∈ insertGroup b k0 gs, ∀ k ∈ p.2, k ∈ S := by
  induction gs with
  | nil =>
    intro p hp k hkmem
    simp only [insertGroup, List.mem_singleton] at hp
    subst hp
    simp only [List.mem_singleton] at hkmem
    subst hkmem
    exact hk
  | cons g rest ih =>
    obtain ⟨b', ks⟩ := g
    intro p hp k hkmem
    by_cases hb : b' = b
    · simp only [insertGroup, if_pos hb] at hp
      rcases List.mem_cons.1 hp with rfl | hp
      · rcases List.mem_append.1 hkmem with hk1 | hk1
        · exact hgs (b', ks) (by simp) k hk1
        · simp only [List.mem_singleton] at hk1
          subst hk1
          exact hk
      · exact hgs p (by simp [hp]) k hkmem
    · simp only [insertGroup, if_neg hb] at hp
      rcases List.mem_cons.1 hp with rfl | hp
      · exact hgs (b', ks) (by simp) k hkmem
      · exact ih (fun q hq => hgs q (by simp [hq])) p hp k hkmem

theorem foldl_addToGroups_sub (S : List Str) :
    ∀ (keys : List Str) (gs : List (Str × List Str)),
      (∀ k ∈ keys, k ∈ S) → (∀ p ∈ gs, ∀ k ∈ p.2, k ∈ S) →
      ∀ p ∈ keys.foldl addToGroups gs, ∀ k ∈ p.2, k ∈ S := by
  intro keys
  induction keys with
  | nil =>
    intro gs _ hgs
    simpa using hgs
  | cons k0 rest ih =>
    intro gs hkeys hgs
    rw [List.foldl_cons]
    refine ih (addToGroups gs k0) (fun k hk => hkeys k (by simp [hk])) ?_
    unfold addToGroups
    cases hsb : splitBase (lowerStr k0) with
    | none => exact hgs
    | some b => exact insertGroup_sub S b k0 gs hgs (hkeys k0 (by simp))

theorem maxByLen_mem : ∀ (l : List (Str × List Str)) (g : Str × List Str),
    maxByLen l = some g → g ∈ l := by
  intro l
  induction l with
  | nil => intro g h; cases h
  | cons g0 gs ih =>
    intro g h
    simp only [maxByLen] at h
    cases hm : maxByLen gs with
    | none =>
      rw [hm] at h
      simp only [Option.some.injEq] at h
      subst h
      simp
    | some g' =>
      rw [hm] at h
      by_cases hlen : g0.2.length < g'.2.length
      · simp only [hlen, if_true, Option.some.injEq] at h
        subst h
        exact List.mem_cons_of_mem _ (ih g' hm)
      · simp only [hlen, if_false, Option.some.injEq] at h
        subst h
        simp

theorem maxByLen_eq_none : ∀ l : List (Str × List Str), maxByLen l = none → l = [] := by
  intro l
  cases l with
  | nil => intro _; rfl
  | cons g0 gs =>
    intro h
    simp only [maxByLen] at h
    cases hm : maxByLen gs with
    | none => rw [hm] at h; simp at h
    | some g' =>
      rw [hm] at h
      by_cases hlen : g0.2.length < g'.2.length
      · simp only [hlen, if_true] at h; cases h
      · simp only [hlen, if_false] at h; cases h

theorem maxByLen_max : ∀ (l : List (Str × List Str)) (g : Str × List Str),
    maxByLen l = some g → ∀ g' ∈ l, g'.2.length ≤ g.2.length := by
  intro l
  induction l with
  | nil => intro g _ g' hg'; cases hg'
  | cons g0 gs ih =>
    intro g h g' hg'
    simp only [maxByLen] at h
    cases hm : maxByLen gs with
    | none =>
      rw [hm] at h
      simp only [Option.some.injEq] at h
      subst h
      have hnil := maxByLen_eq_none gs hm
      subst hnil
      rcases List.mem_cons.1 hg' with rfl | hg'
      · exact le_refl _
      · cases hg'
    | some gbest =>
      rw [hm] at h
      by_cases hlen : g0.2.length < gbest.2.length
      · simp only [hlen, if_true, Option.some.injEq] at h
        subst h
        rcases List.mem_cons.1 hg' with rfl | hg'
        · exact le_of_lt hlen
        · exact ih gbest hm g' hg'
      · simp only [hlen, if_false, Option.some.injEq] at h
        subst h
        rcases List.mem_cons.1 hg' with rfl | hg'
        · exact le_refl _
        · exact le_trans (ih gbest hm g' hg') (by omega)

theorem mem_discoverCombined (booking sid : Str) (listing : List Str)
    (meta : Str → Option Str) (k : Str) :
    k ∈ discoverCombined booking sid listing meta ↔
      k ∈ listing ∧
      ((containsS k (booking ++ slashLit ++ sid) && !containsS k manifestSuffixLit) = true
       ∨ (containsS k sid && !containsS k manifestSuffixLit) = true
       ∨ (!containsS k manifestSuffixLit && containsS (lowerStr k) partLit
            && decide (meta k = some sid)) = true) := by
  simp only [discoverCombined, mem_dedupFirst, List.mem_append, List.mem_filter]
  tauto

def c9L1 : List Str :=
  ["b1/a.part0".data, "b1/a.part1".data, "b1/c.part0".data, "b1/c.part1".data]

def c9L2 : List Str :=
  ["b1/c.part1".data, "b1/c.part0".data, "b1/a.part1".data, "b1/a.part0".data]

def c9Sid : Str := "sess9".data

/-- C9 fails on the code: in the naming-convention fallback, ties
between basename groups are broken by `max` over dict insertion order,
which is listing order.  Two listings with the same keys in different
orders and two tied 2-member groups select different groups, so
discovery is not a pure function of the key set. -/
theorem claim_C9_counterexample :
    c9L1.Perm c9L2
  ∧ "b1/a.part0".data ∈ discoverBySession bTest c9Sid c9L1 (fun _ => none)
  ∧ "b1/a.part0".data ∉ discoverBySession bTest c9Sid c9L2 (fun _ => none) := by decide

/-- C9 amended: discovery never invents keys (every discovered key is
in the listing), and the union of the path/filename/metadata heuristics
is listing-order-independent as a set; the naming-convention fallback
does select a group of maximal size, but its tie-break follows listing
order, so only maximality — not order-independence — holds for the
fallback. -/
theorem claim_C9_amended :
    (∀ (booking sid : Str) (listing : List Str) (meta : Str → Option Str) (k : Str),
      k ∈ discoverBySession booking sid listing meta → k ∈ listing)
  ∧ (∀ (booking sid : Str) (l1 l2 : List Str) (meta : Str → Option Str),
      l1.Perm l2 → discoverCombined booking sid l1 meta ≠ [] →
      ∀ k : Str, k ∈ discoverBySession booking sid l1 meta
        ↔ k ∈ discoverBySession booking sid l2 meta)
  ∧ (∀ (booking sid : Str) (listing : List Str) (meta : Str → Option Str),
      discoverCombined booking sid listing meta = [] →
      ∀ g ∈ buildGroups (listing.filter fun k => containsS (lowerStr k) dotPartLit),
        g.2.length ≤ (discoverBySession booking sid listing meta).length) := by
  refine ⟨?_, ?_, ?_⟩
  · intro booking sid listing meta k hk
    simp only [discoverBySession] at hk
    by_cases hcomb : discoverCombined booking sid listing meta = []
    · rw [if_pos hcomb] at hk
      simp only [discoverFallback] at hk
      cases hm : maxByLen
          (buildGroups (listing.filter fun k => containsS (lowerStr k) dotPartLit)) with
      | none => rw [hm] at hk; cases hk
      | some g =>
        rw [hm] at hk
        exact foldl_addToGroups_sub listing
          (listing.filter fun k => containsS (lowerStr k) dotPartLit) []
          (fun k' hk' => (List.mem_filter.1 hk').1) (by simp)
          g (maxByLen_mem _ g hm) k hk
    · rw [if_neg hcomb] at hk
      exact ((mem_discoverCombined booking sid listing meta k).1 hk).1
  · intro booking sid l1 l2 meta hperm hne k
    have hne2 : discoverCombined booking sid l2 meta ≠ [] := by
      obtain ⟨x, hx⟩ := List.exists_mem_of_ne_nil _ hne
      have hx1 := (mem_discoverCombined booking sid l1 meta x).1 hx
      have hx2 : x ∈ discoverCombined booking sid l2 meta :=
        (mem_discoverCombined booking sid l2 meta x).2 ⟨hperm.mem_iff.1 hx1.1, hx1.2⟩
      intro hc
      rw [hc] at hx2
      cases hx2
    simp only [discoverBySession, if_neg hne, if_neg hne2]
    rw [mem_discoverCombined, mem_discoverCombined, hperm.mem_iff]
  · intro booking sid listing meta hcomb g hg
    simp only [discoverBySession, if_pos hcomb, discoverFallback]
    cases hm : maxByLen
        (buildGroups (listing.filter fun k => containsS (lowerStr k) dotPartLit)) with
    | none =>
      have := maxByLen_eq_none _ hm
      rw [this] at hg
      cases hg
    | some gbest => exact maxByLen_max _ gbest hm g hg

theorem claim_C9_witness :
    "b1/a.part0".data ∈ discoverBySession bTest c9Sid c9L1 (fun _ => none)
  ∧ "b1/a.part0".data ∈ c9L1 :=
  ⟨by decide, claim_C9_amended.1 bTest c9Sid c9L1 (fun _ => none) "b1/a.part0".data
    (by decide)⟩

/-!  ## Claim C10: filenames recorded by the two merge paths -/

theorem startsWith_head (x rest : Str) (c : Char)
    (h : startsWithS x (c :: rest) = true) : x.head? = some c := by
  cases x with
  | nil => simp [startsWithS] at h
  | cons d ds =>
    simp only [startsWithS, Bool.and_eq_true, beq_iff_eq] at h
    simp [h.1]

theorem reverse_head_of_endsWith (s t : Str) (c : Char) (rest : Str)
    (ht : t.reverse = c :: rest) (h : endsWithS s t = true) :
    s.reverse.head? = some c := by
  rw [endsWithS, ht] at h
  exact startsWith_head s.reverse rest c h

theorem startsWith_self_append (a b : Str) : startsWithS (a ++ b) a = true := by
  induction a with
  | nil => simp [startsWithS]
  | cons c cs ih => simp [startsWithS, ih]

theorem endsWith_append_self (s t : Str) : endsWithS (s ++ t) t = true := by
  rw [endsWithS, List.reverse_append]
  exact startsWith_self_append t.reverse s.reverse

theorem ensureTif_ends (c1 : Str) :
    endsWithS (lowerStr (ensureTifExt c1)) tifLit = true
  ∨ endsWithS (lowerStr (ensureTifExt c1)) tiffLit = true := by
  by_cases hc : (endsWithS (lowerStr c1) tifLit || endsWithS (lowerStr c1) tiffLit) = true
  · rw [ensureTifExt, if_pos hc]
    simpa using hc
  · rw [ensureTifExt, if_neg hc]
    left
    have hdist : lowerStr (c1 ++ tifLit) = lowerStr c1 ++ tifLit := by
      rw [lowerStr, List.map_append]
      rfl
    rw [hdist]
    exact endsWith_append_self (lowerStr c1) tifLit

theorem lower_clean_last (o : Str) :
    (lowerStr (clean_filename o)).reverse.head? = some 'f' := by
  unfold clean_filename
  rcases ensureTif_ends (stripAtFirstPart o) with h | h
  · exact reverse_head_of_endsWith _ tifLit 'f' ['i', 't', '.'] (by decide) h
  · exact reverse_head_of_endsWith _ tiffLit 'f' ['f', 'i', 't', '.'] (by decide) h

theorem head_of_takeWhile_ne_nil (p : Char → Bool) (l : Str)
    (h : l.takeWhile p ≠ []) : ∃ c, l.head? = some c ∧ p c = true := by
  cases l with
  | nil => simp [List.takeWhile] at h
  | cons c cs =>
    by_cases hp : p c
    · exact ⟨c, rfl, hp⟩
    · rw [List.takeWhile_cons_of_neg hp] at h
      exact absurd rfl h

/-- Cleaning never returns the input when the input carries a `.partN`
suffix (its last character is a digit while the cleaned name ends in
`f`) or lacks a `.tif`/`.tiff` extension (which cleaning always
restores). -/
theorem ofn_ne_clean (o : Str)
    (h : hasPartNumSuffix o = true ∨
      (endsWithS (lowerStr o) tifLit || endsWithS (lowerStr o) tiffLit) = false) :
    o ≠ clean_filename o := by
  intro heq
  have hlow : lowerStr o = lowerStr (clean_filename o) := by rw [← heq]
  rcases h with h | h
  · simp only [hasPartNumSuffix, Bool.and_eq_true, Bool.not_eq_true',
      List.isEmpty_eq_false] at h
    obtain ⟨c, hc, hcd⟩ :=
      head_of_takeWhile_ne_nil Char.isDigit (lowerStr o).reverse h.1
    have hf : (lowerStr (clean_filename o)).reverse.head? = some 'f' := lower_clean_last o
    rw [← hlow, hc] at hf
    have hcf : c = 'f' := by
      simpa using hf
    rw [hcf] at hcd
    simp at hcd
  · have h2 : endsWithS (lowerStr (clean_filename o)) tifLit = true
        ∨ endsWithS (lowerStr (clean_filename o)) tiffLit = true :=
      ensureTif_ends (stripAtFirstPart o)
    rw [← hlow] at h2
    rcases h2 with h2 | h2 <;> rw [h2] at h <;> simp at h

/-- C10: with a real manifest, the direct download/concatenate path
records and returns the manifest's originalFileName verbatim while the
output key embeds the cleaned filename; the multipart path records the
cleaned filename; and whenever the originalFileName carries a `.partN`
suffix or lacks a `.tif`/`.tiff` extension the two names differ. -/
theorem claim_C10_direct_path_filename :
    ∀ (st : SysState) (booking : Str) (manifest : Manifest) (keys : List Str) (rid : Str)
      (now : Nat) (orc : MergeOracles) (sid ofn : Str) (sizes : List Nat),
      manifest.sessionId = some sid → sid ≠ [] →
      manifest.originalFileName = some ofn → ofn ≠ [] →
      headSizes orc.headLen (sortByPartNum keys) = some sizes →
      ((selectsDirectPath (sortByPartNum keys) sizes = true →
          (reassemble_chunks_with_known_keys st booking manifest keys rid now
              orc).2.1.fileName = some ofn
        ∧ (reassemble_chunks_with_known_keys st booking manifest keys rid now
              orc).2.1.s3Key = some (outputKeyOf booking rid (clean_filename ofn))
        ∧ (alookup rid (reassemble_chunks_with_known_keys st booking manifest keys rid now
              orc).1.resources).map (fun r => r.fileName) = some ofn)
      ∧ (selectsDirectPath (sortByPartNum keys) sizes = false →
          firstCopyFail orc.copyFails (sortByPartNum keys).length = none →
          orc.completeFail = false →
          (reassemble_chunks_with_known_keys st booking manifest keys rid now
              orc).2.1.fileName = some (clean_filename ofn))
      ∧ ((hasPartNumSuffix ofn = true ∨
            (endsWithS (lowerStr ofn) tifLit || endsWithS (lowerStr ofn) tiffLit) = false) →
          ofn ≠ clean_filename ofn)) := by
  intro st booking manifest keys rid now orc sid ofn sizes hsid hsidne hofn hofnne hsizes
  refine ⟨?_, ?_, ?_⟩
  · intro hdir
    rw [known_keys_eq_direct st booking manifest keys rid now orc sid ofn sizes
      hsid hsidne hofn hofnne hsizes hdir]
    refine ⟨?_, ?_, ?_⟩ <;>
      simp [reassemble_by_direct_download, finalize_reassembly, completeSessionUpdate,
        updSession, alookup_aupsert, hofn]
  · intro hdir hf hc
    rw [known_keys_eq_multipart st booking manifest keys rid now orc sid ofn sizes
      hsid hsidne hofn hofnne hsizes hdir]
    rw [multipart_ok_spec st booking sid (sortByPartNum keys) _ rid _ now orc hf hc]
    simp [finalize_reassembly]
  · exact fun h => ofn_ne_clean ofn h

def c10M : Manifest :=
  { sessionId := some sidTest, originalFileName := some "scan.tif.part0".data,
    totalChunks := some 2 }

theorem claim_C10_witness :
    (reassemble_chunks_with_known_keys emptyState bTest c10M c2Keys c2Rid1 20
        c2Orc).2.1.fileName = some "scan.tif.part0".data
  ∧ "scan.tif.part0".data ≠ clean_filename "scan.tif.part0".data := by
  have h := claim_C10_direct_path_filename emptyState bTest c10M c2Keys c2Rid1 20 c2Orc
    sidTest "scan.tif.part0".data [1, 1] (by decide) (by decide) (by decide) (by decide)
    (by decide)
  exact ⟨(h.1 (by decide)).1, h.2.2 (Or.inl (by decide))⟩
